import Mathlib

/-!
# photon: the `i18n` translator object of `src/main.js`

A shallow embedding of the script: JavaScript values as a tree type, the
translator's two fields as a record, the document as a tree of nodes, and the
`fetch` call as an environment function.  What the language itself supplies
(lower-casing, properties that are not own members of a parsed JSON object,
string conversion of non-primitive values) is gathered in `Runtime` and the
theorems hold for every runtime.
-/

namespace Photon

/-! ## JavaScript values -/

/-- The values the script handles: what `response.json()` can produce, plus
`undefined` and built-in function objects (reachable through inherited
properties).  A number is kept as the two things the script can observe of it:
whether it is falsy (`0`, `-0`, `NaN`) and its decimal text. -/
inductive JSVal where
  | undefined
  | null
  | bool (b : Bool)
  | num (isZero : Bool) (text : String)
  | str (s : String)
  | arr (items : List JSVal)
  | obj (fields : List (String × JSVal))
  | native (name : String)

/-- What the JavaScript engine supplies and the script only calls. -/
structure Runtime where
  /-- The method `String.prototype.toLowerCase`. -/
  toLowerCase : String → String
  /-- The result of `v[key]` when `key` is not an own member of a parsed JSON
  object `v`: inherited and built-in properties, `undefined` when there is none. -/
  builtinProp : JSVal → String → JSVal
  /-- String conversion of arrays, objects and functions; `none` when the
  conversion throws a `TypeError`. -/
  stringify : JSVal → Option String

/-- JavaScript truthiness (`ToBoolean`). -/
def truthy : JSVal → Bool
  | .undefined => false
  | .null => false
  | .bool b => b
  | .num isZero _ => !isZero
  | .str s => !(s == "")
  | .arr _ => true
  | .obj _ => true
  | .native _ => true

/-- The operator `a ?? b`. -/
def nullish (a b : JSVal) : JSVal :=
  match a with
  | .undefined => b
  | .null => b
  | v => v

/-- Own member `key` of a parsed JSON object, given by its member list. -/
def ownProp : List (String × JSVal) → String → Option JSVal
  | [], _ => none
  | (k, v) :: rest, key => if k = key then some v else ownProp rest key

/-- Property access `v[key]` on a truthy value. -/
def getProp (rt : Runtime) (v : JSVal) (key : String) : JSVal :=
  match v with
  | .obj fields =>
    match ownProp fields key with
    | some x => x
    | none => rt.builtinProp v key
  | _ => rt.builtinProp v key

/-- String conversion (`ToString`) of a value; `none` when it throws. -/
def toStr (rt : Runtime) : JSVal → Option String
  | .undefined => some "undefined"
  | .null => some "null"
  | .bool true => some "true"
  | .bool false => some "false"
  | .num _ text => some text
  | .str s => some s
  | v => rt.stringify v

/-! ## Strings -/

/-- Pieces of a character list between occurrences of `sep`. -/
def splitChars (sep : Char) : List Char → List (List Char)
  | [] => [[]]
  | c :: cs =>
    if c = sep then [] :: splitChars sep cs
    else
      match splitChars sep cs with
      | [] => [[c]]
      | h :: rest => (c :: h) :: rest

/-- The call `s.split(sep)` for a one-character separator. -/
def jsSplit (sep : Char) (s : String) : List String :=
  (splitChars sep s.data).map String.mk

/-- The call `s.startsWith(pre)`. -/
def startsWith (s pre : String) : Bool :=
  pre.data.isPrefixOf s.data

/-- The expression `x || ''` for `x` a string or `undefined`/`null`. -/
def orEmpty : Option String → String
  | none => ""
  | some s => if s = "" then "" else s

/-! ## The translator -/

/-- The fields `translations` and `currentLang` of the `i18n` object. -/
structure I18n where
  translations : JSVal
  currentLang : String

/-- The object literal as written: `translations: {}`, `currentLang: 'en'`. -/
def I18n.initial : I18n := I18n.mk (.obj []) "en"

/-- `detectLanguage()`, as a function of `window.location.pathname`. -/
def detectLanguage (rt : Runtime) (pathname : String) : String :=
  let seg := rt.toLowerCase (orEmpty ((jsSplit '/' pathname)[1]?))
  if seg = "uk" then "uk" else "en"

/-- `getLocalesUrl(langFile)`, as a function of `window.location.origin`. -/
def getLocalesUrl (origin langFile : String) : String :=
  origin ++ "/locales/" ++ langFile ++ ".json"

/-- How one `fetch(url)` followed by `response.json()` can end. -/
inductive FetchOutcome where
  /-- The `fetch` promise rejects (network error). -/
  | rejected
  /-- A response with a status code; `body = none` when `response.json()`
  rejects because the body is not JSON. -/
  | response (status : Nat) (body : Option JSVal)

/-- The getter `response.ok`: status in the range 200-299. -/
def responseOk (status : Nat) : Bool :=
  decide (200 ≤ status) && decide (status ≤ 299)

/-- The `try` block of `loadTranslations`: a thrown error is `Except.error`. -/
def loadTranslationsTry (origin : String) (fetch : String → FetchOutcome)
    (lang : String) : Except String (JSVal × I18n) :=
  let langFile := if lang = "uk" then "uk" else "en"
  let url := getLocalesUrl origin langFile
  match fetch url with
  | .rejected => .error "fetch rejected"
  | .response status body =>
    if !responseOk status then
      .error ("Failed to load " ++ url ++ " (" ++ toString status ++ ")")
    else
      match body with
      | none => .error "response.json() rejected"
      | some parsed => .ok (parsed, I18n.mk parsed lang)

/-- `loadTranslations(lang)`: the returned value and the translator afterwards.
The `catch` block stores `{}` and returns `{}`; it does not assign
`currentLang`. -/
def loadTranslations (self : I18n) (origin : String) (fetch : String → FetchOutcome)
    (lang : String) : Except String (JSVal × I18n) :=
  match loadTranslationsTry origin fetch lang with
  | .ok r => .ok r
  | .error _ => .ok (.obj [], I18n.mk (.obj []) self.currentLang)

/-- The callback of the `reduce` in `getNestedValue`:
`current && current[key] !== undefined ? current[key] : null`. -/
def getNestedValueStep (rt : Runtime) (current : JSVal) (key : String) : JSVal :=
  if truthy current then
    match getProp rt current key with
    | .undefined => .null
    | v => v
  else .null

/-- `getNestedValue(obj, path)`. -/
def getNestedValue (rt : Runtime) (obj : JSVal) (path : String) : JSVal :=
  (jsSplit '.' path).foldl (getNestedValueStep rt) obj

/-- `t(key, fallback = '')`; an omitted argument is `undefined`, and the
default `''` replaces an `undefined` argument. -/
def t (rt : Runtime) (self : I18n) (key : String) (fallback : JSVal) : JSVal :=
  let fb :=
    match fallback with
    | .undefined => .str ""
    | v => v
  nullish (nullish (getNestedValue rt self.translations key) fb) (.str key)

/-! ## The document -/

/-- A node of the document tree.  An element carries its class list, its other
attributes and its children. -/
inductive Node where
  | text (data : String)
  | comment (data : String)
  | element (classes : List String) (attrs : List (String × String))
      (children : List Node)

/-- `element.getAttribute(name)`; `none` is `null`. -/
def getAttribute : List (String × String) → String → Option String
  | [], _ => none
  | (k, v) :: rest, name => if k = name then some v else getAttribute rest name

/-- `element.setAttribute(name, value)`. -/
def setAttribute : List (String × String) → String → String → List (String × String)
  | [], name, value => [(name, value)]
  | (k, v) :: rest, name, value =>
    if k = name then (k, value) :: rest else (k, v) :: setAttribute rest name value

mutual
/-- The getter `node.textContent`: the text of the descendants, in tree order. -/
def textContent : Node → String
  | .text d => d
  | .comment _ => ""
  | .element _ _ ch => textContentList ch
/-- Concatenated text of a list of sibling nodes. -/
def textContentList : List Node → String
  | [] => ""
  | n :: ns => textContent n ++ textContentList ns
end

/-- The children an element has after `element.textContent = value`. -/
def setTextContent (value : String) : List Node :=
  if value = "" then [] else [.text value]

/-- Conversion applied by the setter `textContent` to the assigned value
(the attribute is a nullable string: `null` and `undefined` become the empty
string); `none` when the conversion throws. -/
def textContentArg (rt : Runtime) : JSVal → Option String
  | .null => some ""
  | .undefined => some ""
  | v => toStr rt v

mutual
/-- The callback of the first loop on an element that is in the node list but
no longer in the document, and then on its descendants: whether it completes.
What it writes is not seen in the document. -/
def visitDetached (rt : Runtime) (self : I18n) : Node → Bool
  | .text _ => true
  | .comment _ => true
  | .element _ attrs ch =>
    match getAttribute attrs "data-i18n" with
    | none => visitDetachedList rt self ch
    | some key =>
      if key = "" then visitDetachedList rt self ch
      else
        match textContentArg rt (t rt self key (.str (textContentList ch))) with
        | none => false
        | some _ => visitDetachedList rt self ch
/-- The detached visit of a list of siblings, in order. -/
def visitDetachedList (rt : Runtime) (self : I18n) : List Node → Bool
  | [] => true
  | n :: ns => visitDetached rt self n && visitDetachedList rt self ns
end

mutual
/-- First loop of `applyTranslations`, over `[data-i18n]`: the document it
leaves and whether it completed (`false`: a conversion threw and the loop
stopped there).  The node list is a snapshot in document order, so an element
is visited before its descendants; once its `textContent` is assigned its
former descendants are no longer in the document, but they are still in the
list and are visited. -/
def applyText (rt : Runtime) (self : I18n) : Node → Node × Bool
  | .text d => (.text d, true)
  | .comment d => (.comment d, true)
  | .element cls attrs ch =>
    match getAttribute attrs "data-i18n" with
    | none =>
      match applyTextList rt self ch with
      | (ch1, ok) => (.element cls attrs ch1, ok)
    | some key =>
      if key = "" then
        match applyTextList rt self ch with
        | (ch1, ok) => (.element cls attrs ch1, ok)
      else
        match textContentArg rt (t rt self key (.str (textContentList ch))) with
        | none => (.element cls attrs ch, false)
        | some s => (.element cls attrs (setTextContent s), visitDetachedList rt self ch)
/-- The first loop on a list of siblings, in order. -/
def applyTextList (rt : Runtime) (self : I18n) : List Node → List Node × Bool
  | [] => ([], true)
  | n :: ns =>
    match applyText rt self n with
    | (n1, false) => (n1 :: ns, false)
    | (n1, true) =>
      match applyTextList rt self ns with
      | (ns1, ok) => (n1 :: ns1, ok)
end

/-- Body of the second and third loops on one element's attributes:
`marker` names the key, `target` is the attribute rewritten; `none` when the
conversion of the value throws. -/
def applyAttr (rt : Runtime) (self : I18n) (marker target : String)
    (attrs : List (String × String)) : Option (List (String × String)) :=
  match getAttribute attrs marker with
  | none => some attrs
  | some key =>
    if key = "" then some attrs
    else
      match toStr rt (t rt self key (.str (orEmpty (getAttribute attrs target)))) with
      | none => none
      | some value => some (setAttribute attrs target value)

mutual
/-- Second and third loops of `applyTranslations`, over `[marker]`: the
document left and whether the loop completed. -/
def applyAttrs (rt : Runtime) (self : I18n) (marker target : String) : Node → Node × Bool
  | .text d => (.text d, true)
  | .comment d => (.comment d, true)
  | .element cls attrs ch =>
    match applyAttr rt self marker target attrs with
    | none => (.element cls attrs ch, false)
    | some attrs1 =>
      match applyAttrsList rt self marker target ch with
      | (ch1, ok) => (.element cls attrs1 ch1, ok)
/-- The attribute loop on a list of siblings, in order. -/
def applyAttrsList (rt : Runtime) (self : I18n) (marker target : String) :
    List Node → List Node × Bool
  | [] => ([], true)
  | n :: ns =>
    match applyAttrs rt self marker target n with
    | (n1, false) => (n1 :: ns, false)
    | (n1, true) =>
      match applyAttrsList rt self marker target ns with
      | (ns1, ok) => (n1 :: ns1, ok)
end

/-- The assignment `document.documentElement.lang = value`. -/
def setLang (value : String) : Node → Node
  | .element cls attrs ch => .element cls (setAttribute attrs "lang" value) ch
  | n => n

/-- `applyTranslations()` on the document given by its root element: the
document it leaves and whether it completed; a loop that throws ends the
call, the later loops and the `lang` assignment are not run. -/
def applyTranslations (rt : Runtime) (self : I18n) (doc : Node) : Node × Bool :=
  match applyText rt self doc with
  | (d1, false) => (d1, false)
  | (d1, true) =>
    match applyAttrs rt self "data-i18n-placeholder" "placeholder" d1 with
    | (d2, false) => (d2, false)
    | (d2, true) =>
      match applyAttrs rt self "data-i18n-alt" "alt" d2 with
      | (d3, false) => (d3, false)
      | (d3, true) => (setLang (if self.currentLang = "uk" then "uk" else "en") d3, true)

/-! ## Language switch -/

/-- What a click on a switch link does: whether `preventDefault` was called and
the calls of `window.location.assign`, in order. -/
structure ClickEffect where
  defaultPrevented : Bool
  assigned : List String
  deriving DecidableEq

/-- The click listener that `bindLanguageSwitch` adds to a link, given the
link's `data-lang` attribute and the pathname at the time of the click. -/
def bindLanguageSwitch (dataLang : Option String) (pathname : String) : ClickEffect :=
  match dataLang with
  | none => ClickEffect.mk false []
  | some lang =>
    if lang = "" then ClickEffect.mk false []
    else
      let target := if lang = "uk" then "/uk" else "/en"
      if pathname = target || startsWith pathname (target ++ "/") then
        ClickEffect.mk true []
      else ClickEffect.mk true [target]

/-- `classList.toggle(token, force)`. -/
def classListToggle (classes : List String) (token : String) (force : Bool) : List String :=
  if force then (if token ∈ classes then classes else classes ++ [token])
  else classes.filter (fun c => c ≠ token)

/-- Body of the loop of `updateLanguageLinks` on one `.lang-link` element. -/
def updateLink (self : I18n) (cls : List String) (attrs : List (String × String)) :
    List String :=
  let linkLang := getAttribute attrs "data-lang"
  let isActive := (linkLang = some "en" && self.currentLang = "en")
    || (linkLang = some "uk" && self.currentLang = "uk")
  classListToggle cls "active" isActive

mutual
/-- `updateLanguageLinks()` on a tree: every element of class `lang-link`. -/
def updateLanguageLinks (self : I18n) : Node → Node
  | .text d => .text d
  | .comment d => .comment d
  | .element cls attrs ch =>
    .element (if "lang-link" ∈ cls then updateLink self cls attrs else cls) attrs
      (updateLanguageLinksList self ch)
/-- The loop of `updateLanguageLinks` on a list of siblings. -/
def updateLanguageLinksList (self : I18n) : List Node → List Node
  | [] => []
  | n :: ns => updateLanguageLinks self n :: updateLanguageLinksList self ns
end

/-- What `init()` leaves: the document, the translator, and whether the call
completed (`false`: `applyTranslations` threw and the promise rejects). -/
structure InitResult where
  doc : Node
  self : I18n
  completed : Bool

/-- `init()`: detect, load, apply, update links (binding adds listeners only). -/
def init (rt : Runtime) (origin pathname : String) (fetch : String → FetchOutcome)
    (self : I18n) (doc : Node) : InitResult :=
  let self1 := I18n.mk self.translations (detectLanguage rt pathname)
  match loadTranslations self1 origin fetch self1.currentLang with
  | .error _ => InitResult.mk doc self1 false
  | .ok (_, self2) =>
    match applyTranslations rt self2 doc with
    | (doc1, false) => InitResult.mk doc1 self2 false
    | (doc1, true) => InitResult.mk (updateLanguageLinks self2 doc1) self2 true

mutual
/-- The elements of a tree, the root included, in document order. -/
def elementsOf : Node → List Node
  | .text _ => []
  | .comment _ => []
  | .element cls attrs ch => .element cls attrs ch :: elementsOfList ch
/-- The elements below a list of siblings. -/
def elementsOfList : List Node → List Node
  | [] => []
  | n :: ns => elementsOf n ++ elementsOfList ns
end

/-! ## A concrete runtime, for evaluating examples -/

/-- Names of the members every object inherits from `Object.prototype`. -/
def objectPrototypeMembers : List String :=
  ["constructor", "hasOwnProperty", "isPrototypeOf", "propertyIsEnumerable",
   "toLocaleString", "toString", "valueOf", "__defineGetter__", "__defineSetter__",
   "__lookupGetter__", "__lookupSetter__"]

mutual
/-- String conversion of the values of a parsed bundle: an array is the join
of its items, a plain object is `[object Object]`, and an object with an own
member `toString` (never callable in parsed JSON) throws. -/
def stdToString : JSVal → Option String
  | .undefined => some "undefined"
  | .null => some "null"
  | .bool true => some "true"
  | .bool false => some "false"
  | .num _ text => some text
  | .str s => some s
  | .arr items => stdJoin items
  | .obj fields =>
    match ownProp fields "toString" with
    | some _ => none
    | none => some "[object Object]"
  | .native name => some ("function " ++ name ++ "() \x7b [native code] \x7d")
/-- The join of array items with a comma; `null` and `undefined` items are
empty. -/
def stdJoin : List JSVal → Option String
  | [] => some ""
  | x :: rest =>
    let item :=
      match x with
      | .null => some ""
      | .undefined => some ""
      | v => stdToString v
    match item, rest with
    | none, _ => none
    | some a, [] => some a
    | some a, y :: more =>
      match stdJoin (y :: more) with
      | none => none
      | some b => some (a ++ "," ++ b)
end

/-- A runtime covering what the examples use: ASCII lower-casing, the function
members that a plain object inherits from `Object.prototype` (`constructor`
is the function `Object`), and the usual string conversion.  Other built-in
properties (string indices and lengths, members of functions) are not
covered. -/
def stdRuntime : Runtime where
  toLowerCase := fun s => String.mk (s.data.map Char.toLower)
  builtinProp := fun v key =>
    match v with
    | .obj _ =>
      if key = "constructor" then .native "Object"
      else if key ∈ objectPrototypeMembers then .native key
      else .undefined
    | _ => .undefined
  stringify := stdToString

/-! ## Definitions that follow the spec, and example inputs -/

/-- Follows the spec's words: the first slash-delimited segment of a path, that
is the text after the first slash of the path up to the next slash (or the
end); empty when the path has no slash. -/
def firstSegment (p : String) : String :=
  String.mk (((p.data.dropWhile (fun c => c ≠ '/')).drop 1).takeWhile (fun c => c ≠ '/'))

/-- The bundle of the spec's round-trip example. -/
def exampleBundle : JSVal := .obj [("a", .obj [("b", .str "X")])]

/-- Follows the spec's words: the segments lead, one nested mapping at a time,
to a value of the bundle. -/
def leadsTo : JSVal → List String → Option JSVal
  | v, [] => some v
  | .obj fields, k :: ks =>
    match ownProp fields k with
    | some x => leadsTo x ks
    | none => none
  | _, _ :: _ => none

/-- Follows the spec's words: the fetch ended in a failure, that is a network
error, a non-success status code, or a body that is not JSON. -/
def fetchFailed : FetchOutcome → Bool
  | .rejected => true
  | .response status body => !responseOk status || body.isNone

/-- The request that `loadTranslations(lang)` makes. -/
def requestUrl (origin lang : String) : String :=
  getLocalesUrl origin (if lang = "uk" then "uk" else "en")

/-- A response with status 404 to every request. -/
def fetch404 : String → FetchOutcome := fun _ => .response 404 none

/-- A navigation bar with a link to `uk` and a link to `en` that is marked
active. -/
def exampleLinks : Node :=
  .element ["nav"] []
    [.element ["lang-link"] [("data-lang", "uk")] [.text "UA"],
     .element ["lang-link", "active"] [("data-lang", "en")] [.text "EN"]]

/-- The text that a lookup of `key` with the string fallback `s` produces when
the conversion returns: the converted value when the key resolves, the
fallback otherwise. -/
def resolveOr (rt : Runtime) (self : I18n) (key s : String) : String :=
  match getNestedValue rt self.translations key with
  | .undefined => s
  | .null => s
  | v => (toStr rt v).getD ""

/-- Whether the string conversion of what `key` resolves to returns; a key
that does not resolve gives the fallback, a string. -/
def converts (rt : Runtime) (self : I18n) (key : String) : Bool :=
  match getNestedValue rt self.translations key with
  | .undefined => true
  | .null => true
  | v => (toStr rt v).isSome

/-- Whether the key that the attribute `marker` gives, if any, converts. -/
def keyConverts (rt : Runtime) (self : I18n) (marker : String)
    (attrs : List (String × String)) : Bool :=
  match getAttribute attrs marker with
  | none => true
  | some key => if key = "" then true else converts rt self key

mutual
/-- Whether the keys that `marker` gives on the elements of a tree all convert. -/
def allConvert (rt : Runtime) (self : I18n) (marker : String) : Node → Bool
  | .text _ => true
  | .comment _ => true
  | .element _ attrs ch =>
    keyConverts rt self marker attrs && allConvertList rt self marker ch
/-- Whether the keys below a list of siblings all convert. -/
def allConvertList (rt : Runtime) (self : I18n) (marker : String) : List Node → Bool
  | [] => true
  | n :: ns => allConvert rt self marker n && allConvertList rt self marker ns
end

mutual
/-- The document that the first loop leaves when it completes. -/
def applyTextDone (rt : Runtime) (self : I18n) : Node → Node
  | .text d => .text d
  | .comment d => .comment d
  | .element cls attrs ch =>
    match getAttribute attrs "data-i18n" with
    | none => .element cls attrs (applyTextDoneList rt self ch)
    | some key =>
      if key = "" then .element cls attrs (applyTextDoneList rt self ch)
      else .element cls attrs (setTextContent (resolveOr rt self key (textContentList ch)))
/-- The siblings that the first loop leaves when it completes. -/
def applyTextDoneList (rt : Runtime) (self : I18n) : List Node → List Node
  | [] => []
  | n :: ns => applyTextDone rt self n :: applyTextDoneList rt self ns
end

/-- The attributes that the body of an attribute loop leaves when its
conversion returns. -/
def applyAttrDone (rt : Runtime) (self : I18n) (marker target : String)
    (attrs : List (String × String)) : List (String × String) :=
  match getAttribute attrs marker with
  | none => attrs
  | some key =>
    if key = "" then attrs
    else setAttribute attrs target (resolveOr rt self key (orEmpty (getAttribute attrs target)))

mutual
/-- The document that an attribute loop leaves when it completes. -/
def applyAttrsDone (rt : Runtime) (self : I18n) (marker target : String) : Node → Node
  | .text d => .text d
  | .comment d => .comment d
  | .element cls attrs ch =>
    .element cls (applyAttrDone rt self marker target attrs)
      (applyAttrsDoneList rt self marker target ch)
/-- The siblings that an attribute loop leaves when it completes. -/
def applyAttrsDoneList (rt : Runtime) (self : I18n) (marker target : String) :
    List Node → List Node
  | [] => []
  | n :: ns =>
    applyAttrsDone rt self marker target n :: applyAttrsDoneList rt self marker target ns
end

/-- The document that `applyTranslations` leaves when it completes. -/
def applyTranslationsDone (rt : Runtime) (self : I18n) (doc : Node) : Node :=
  setLang (if self.currentLang = "uk" then "uk" else "en")
    (applyAttrsDone rt self "data-i18n-alt" "alt"
      (applyAttrsDone rt self "data-i18n-placeholder" "placeholder"
        (applyTextDone rt self doc)))

/-- A bundle in which `a.b` is a string and `k` is a mapping with a member
named `toString`. -/
def throwingBundle : JSVal :=
  .obj [("a", .obj [("b", .str "X")]), ("k", .obj [("toString", .str "x")])]

/-- A page where an element translated by a missing key holds an element
translated by `k`, followed by an element translated by `a.b`. -/
def nestedDoc : Node :=
  .element [] []
    [.element [] [("data-i18n", "outer.missing")]
       [.element [] [("data-i18n", "k")] [.text "bold"], .text " tail"],
     .element [] [("data-i18n", "a.b")] [.text "Later"]]

/-- A page with one translated element, whose key is `constructor`. -/
def exampleDoc : Node :=
  .element [] []
    [.element [] [("data-i18n", "constructor")] [.text "Builder"]]

/-! ## Locale detection -/

theorem orEmpty_some (s : String) : orEmpty (some s) = s := by
  show (if s = "" then "" else s) = s
  split_ifs with h
  · exact h.symm
  · rfl

theorem splitChars_eq (sep : Char) (l : List Char) :
    splitChars sep l =
      l.takeWhile (fun c => c ≠ sep) ::
        (match l.dropWhile (fun c => c ≠ sep) with
         | [] => []
         | _ :: r => splitChars sep r) := by
  induction l with
  | nil => simp [splitChars]
  | cons c cs ih =>
    by_cases h : c = sep
    · simp [splitChars, h]
    · rw [splitChars, if_neg h, ih]
      simp [h]

theorem jsSplit_second (p : String) :
    orEmpty ((jsSplit '/' p)[1]?) = firstSegment p := by
  unfold jsSplit firstSegment
  rw [splitChars_eq]
  cases hd : p.data.dropWhile (fun c => c ≠ '/') with
  | nil => simp [orEmpty]
  | cons c r =>
    simp only [List.map_cons, List.drop_succ_cons, List.drop_zero]
    rw [splitChars_eq]
    simp [orEmpty_some]

/-- C2: `detectLanguage` returns `uk` exactly when the first slash-delimited
segment of the path, lower-cased, is `uk`, and `en` exactly when it is not;
it is a total function of the path.  For the paths of the spec: `/UK/about`
gives `uk`, while the empty path, `/` and `/fr` give `en`. -/
theorem detectLanguage_first_segment (rt : Runtime) (p : String) :
    (detectLanguage rt p = "uk" ↔ rt.toLowerCase (firstSegment p) = "uk")
    ∧ (detectLanguage rt p = "en" ↔ rt.toLowerCase (firstSegment p) ≠ "uk")
    ∧ detectLanguage stdRuntime "/UK/about" = "uk"
    ∧ detectLanguage stdRuntime "" = "en"
    ∧ detectLanguage stdRuntime "/" = "en"
    ∧ detectLanguage stdRuntime "/fr" = "en" := by
  have hcode : detectLanguage rt p =
      if rt.toLowerCase (firstSegment p) = "uk" then "uk" else "en" := by
    unfold detectLanguage
    rw [jsSplit_second]
  refine ⟨?_, ?_, by decide, by decide, by decide, by decide⟩
  · rw [hcode]
    by_cases h : rt.toLowerCase (firstSegment p) = "uk"
    · simp [h]
    · simp [h]
  · rw [hcode]
    by_cases h : rt.toLowerCase (firstSegment p) = "uk"
    · rw [if_pos h]
      simp [h]
    · simp [h]

/-- On a path that starts with a slash, the first segment is what stands
between that slash and the next one. -/
theorem firstSegment_absolute (rest : String) :
    firstSegment ("/" ++ rest) = String.mk (rest.data.takeWhile (fun c => c ≠ '/')) := by
  unfold firstSegment
  have : ("/" ++ rest).data = '/' :: rest.data := by
    simp [String.data_append]
  rw [this]
  simp

/-! ## Language switch -/

/-- C7: for a link whose target locale is `en` or `uk`, the click listener
prevents the default action and calls `assign` not at all when the pathname
is the canonical path of the target or starts with it followed by a slash,
and exactly once, with the canonical path, otherwise. -/
theorem bindLanguageSwitch_navigation (pathname lang : String)
    (hl : lang = "en" ∨ lang = "uk") :
    bindLanguageSwitch (some lang) pathname =
      if pathname = "/" ++ lang ∨ startsWith pathname ("/" ++ lang ++ "/") = true then
        ClickEffect.mk true []
      else ClickEffect.mk true ["/" ++ lang] := by
  rcases hl with rfl | rfl
  · have h1 : ("/" ++ "en" : String) = "/en" := by decide
    have h2 : ("/en" ++ "/" : String) = "/en/" := by decide
    simp only [bindLanguageSwitch, h1, h2]
    simp
  · have h1 : ("/" ++ "uk" : String) = "/uk" := by decide
    have h2 : ("/uk" ++ "/" : String) = "/uk/" := by decide
    simp only [bindLanguageSwitch, h1, h2]
    simp

/-- At `/uk/about`: a link to `uk` navigates nowhere, a link to `en` navigates
once, to `/en`. -/
theorem bindLanguageSwitch_navigation_witness :
    (("uk" : String) = "en" ∨ ("uk" : String) = "uk")
    ∧ bindLanguageSwitch (some "uk") "/uk/about" = ClickEffect.mk true []
    ∧ bindLanguageSwitch (some "en") "/uk/about" = ClickEffect.mk true ["/en"] :=
  ⟨Or.inr rfl,
   (bindLanguageSwitch_navigation "/uk/about" "uk" (Or.inr rfl)).trans (by decide),
   (bindLanguageSwitch_navigation "/uk/about" "en" (Or.inl rfl)).trans (by decide)⟩

theorem splitChars_after_slash (a b : Char) (rest : List Char)
    (ha : a ≠ '/') (hb : b ≠ '/')
    (h : rest = [] ∨ ∃ r, rest = '/' :: r) :
    (splitChars '/' ('/' :: a :: b :: rest))[1]? = some [a, b] := by
  rcases h with rfl | ⟨r, rfl⟩
  · simp [splitChars, ha, hb]
  · simp only [splitChars, ha, hb, if_true, if_false]
    simp

theorem second_segment_of_suppressed (pathname : String) (a b : Char)
    (ha : a ≠ '/') (hb : b ≠ '/')
    (h : pathname = String.mk ['/', a, b]
      ∨ startsWith pathname (String.mk ['/', a, b, '/']) = true) :
    (jsSplit '/' pathname)[1]? = some (String.mk [a, b]) := by
  have key : ∃ rest, pathname.data = '/' :: a :: b :: rest ∧ (rest = [] ∨ ∃ r, rest = '/' :: r) := by
    rcases h with h | h
    · exact ⟨[], by rw [h], Or.inl rfl⟩
    · unfold startsWith at h
      rw [ List.isPrefixOf_iff_prefix] at h
      obtain ⟨r, hr⟩ := h
      exact ⟨'/' :: r, by rw [← hr]; rfl, Or.inr ⟨r, rfl⟩⟩
  obtain ⟨rest, hd, hrest⟩ := key
  unfold jsSplit
  rw [hd, List.getElem?_map, splitChars_after_slash a b rest ha hb hrest]
  rfl

theorem path_of_suppressed (pathname : String) (a b : Char) (target lang : String)
    (hnonempty : lang ≠ "")
    (htarget : (if lang = "uk" then "/uk" else "/en") = target)
    (hchars : target = String.mk ['/', a, b])
    (h : (bindLanguageSwitch (some lang) pathname).assigned = []) :
    pathname = String.mk ['/', a, b]
      ∨ startsWith pathname (String.mk ['/', a, b, '/']) = true := by
  have hslash : target ++ "/" = String.mk ['/', a, b, '/'] := by
    rw [hchars]
    rfl
  simp only [bindLanguageSwitch, hnonempty, if_false, htarget, hslash] at h
  split_ifs at h with hc
  rw [hchars] at hc
  simpa using hc

/-- C10: when the click listener of a link to locale `lang` (one of `en`,
`uk`) calls no `assign` at a pathname, `detectLanguage` at that pathname is
`lang`.  The runtime lower-cases `uk` and `en` to themselves. -/
theorem suppression_agrees_with_detection (rt : Runtime) (pathname lang : String)
    (hl : lang = "en" ∨ lang = "uk")
    (huk : rt.toLowerCase "uk" = "uk") (hen : rt.toLowerCase "en" = "en")
    (h : (bindLanguageSwitch (some lang) pathname).assigned = []) :
    detectLanguage rt pathname = lang := by
  rcases hl with rfl | rfl
  · have hc := path_of_suppressed pathname 'e' 'n' "/en" "en" (by decide) (by decide) rfl h
    have hs := second_segment_of_suppressed pathname 'e' 'n' (by decide) (by decide) hc
    unfold detectLanguage
    rw [hs, orEmpty_some]
    have : (String.mk ['e', 'n']) = "en" := rfl
    rw [this, hen]
    decide
  · have hc := path_of_suppressed pathname 'u' 'k' "/uk" "uk" (by decide) (by decide) rfl h
    have hs := second_segment_of_suppressed pathname 'u' 'k' (by decide) (by decide) hc
    unfold detectLanguage
    rw [hs, orEmpty_some]
    have : (String.mk ['u', 'k']) = "uk" := rfl
    rw [this, huk]
    decide

/-- At `/uk/about` the link to `uk` is suppressed and the detected locale is `uk`. -/
theorem suppression_agrees_with_detection_witness :
    (("uk" : String) = "en" ∨ ("uk" : String) = "uk")
    ∧ stdRuntime.toLowerCase "uk" = "uk" ∧ stdRuntime.toLowerCase "en" = "en"
    ∧ (bindLanguageSwitch (some "uk") "/uk/about").assigned = []
    ∧ detectLanguage stdRuntime "/uk/about" = "uk" :=
  ⟨Or.inr rfl, by decide, by decide, by decide,
   suppression_agrees_with_detection stdRuntime "/uk/about" "uk" (Or.inr rfl)
     (by decide) (by decide) (by decide)⟩

/-! ## Key resolution -/

theorem leadsTo_cons_some {cur : JSVal} {k : String} {ks : List String} {v : JSVal}
    (h : leadsTo cur (k :: ks) = some v) :
    ∃ fields x, cur = .obj fields ∧ ownProp fields k = some x ∧ leadsTo x ks = some v := by
  cases cur with
  | obj fields =>
    cases hx : ownProp fields k with
    | none => simp [leadsTo, hx] at h
    | some x =>
      simp only [leadsTo, hx] at h
      exact ⟨fields, x, rfl, hx, h⟩
  | _ => simp [leadsTo] at h

theorem getNestedValueStep_own (rt : Runtime) (fields : List (String × JSVal))
    (k : String) (x : JSVal) (hx : ownProp fields k = some x) (hu : x ≠ .undefined) :
    getNestedValueStep rt (.obj fields) k = x := by
  cases x <;> first
    | exact absurd rfl hu
    | simp [getNestedValueStep, truthy, getProp, hx]

theorem foldl_of_leadsTo (rt : Runtime) (segs : List String) :
    ∀ (cur v : JSVal), leadsTo cur segs = some v → v ≠ .undefined →
      segs.foldl (getNestedValueStep rt) cur = v := by
  induction segs with
  | nil =>
    intro cur v h _
    simpa [leadsTo] using h
  | cons k ks ih =>
    intro cur v h hv
    obtain ⟨fields, x, rfl, hx, hrest⟩ := leadsTo_cons_some h
    have hxu : x ≠ .undefined := by
      intro hxe
      subst hxe
      cases ks with
      | nil =>
        simp [leadsTo] at hrest
        exact hv hrest.symm
      | cons k2 ks2 => simp [leadsTo] at hrest
    rw [List.foldl_cons, getNestedValueStep_own rt fields k x hx hxu]
    exact ih x v hrest hv

theorem nullish_of_value {v : JSVal} (hn : v ≠ .null) (hu : v ≠ .undefined) (b : JSVal) :
    nullish v b = v := by
  cases v <;> first | rfl | exact absurd rfl hn | exact absurd rfl hu

/-- C5: when the segments of the key lead, one nested mapping at a time, to a
value of the bundle that is neither `null` nor `undefined`, `t` returns that
value, whatever the fallback. -/
theorem t_resolved (rt : Runtime) (self : I18n) (key : String) (fallback v : JSVal)
    (h : leadsTo self.translations (jsSplit '.' key) = some v)
    (hn : v ≠ .null) (hu : v ≠ .undefined) :
    t rt self key fallback = v := by
  have hg : getNestedValue rt self.translations key = v :=
    foldl_of_leadsTo rt _ _ _ h hu
  simp only [t, hg, nullish_of_value hn hu]

/-- With the bundle of the example, `a.b` resolves to `X` against a fallback. -/
theorem t_resolved_witness :
    leadsTo (I18n.mk exampleBundle "en").translations (jsSplit '.' "a.b") = some (.str "X")
    ∧ JSVal.str "X" ≠ .null ∧ JSVal.str "X" ≠ .undefined
    ∧ t stdRuntime (I18n.mk exampleBundle "en") "a.b" (.str "F") = .str "X" :=
  ⟨rfl, by simp, by simp,
   t_resolved stdRuntime (I18n.mk exampleBundle "en") "a.b" (.str "F") (.str "X") rfl
     (by simp) (by simp)⟩

/-- What `t` returns when the key does not resolve: a fallback that is neither
`null` nor `undefined` is returned; with the fallback omitted the default `''`
is returned; only the fallback `null` yields the key. -/
theorem t_unresolved (rt : Runtime) (self : I18n) (key : String) (fallback : JSVal)
    (h : getNestedValue rt self.translations key = .null
      ∨ getNestedValue rt self.translations key = .undefined) :
    t rt self key fallback =
      match fallback with
      | .undefined => .str ""
      | .null => .str key
      | v => v := by
  simp only [t]
  rcases h with h | h <;> rw [h] <;> cases fallback <;> rfl

/-- C1, the code at the example of the claim: with the bundle holding only
`a.b`, the key `a.c` does not resolve; `t("a.c", "F")` is `F`, but `t("a.c")`
with the fallback omitted is the empty string, not the key. -/
theorem t_omitted_fallback_is_empty :
    getNestedValue stdRuntime exampleBundle "a.c" = .null
    ∧ t stdRuntime (I18n.mk exampleBundle "en") "a.c" (.str "F") = .str "F"
    ∧ t stdRuntime (I18n.mk exampleBundle "en") "a.c" .undefined = .str ""
    ∧ t stdRuntime (I18n.mk exampleBundle "en") "a.c" .undefined ≠ .str "a.c" := by
  refine ⟨rfl, rfl, rfl, ?_⟩
  have h : t stdRuntime (I18n.mk exampleBundle "en") "a.c" .undefined = .str "" := rfl
  rw [h]
  intro hc
  injection hc with hc
  exact absurd hc (by decide)

/-! ## Loading a bundle -/

/-- The `catch` block leaves `currentLang` as it was before the call. -/
theorem loadTranslations_failure_currentLang (self : I18n) (origin : String)
    (fetch : String → FetchOutcome) (lang : String)
    (h : fetchFailed (fetch (requestUrl origin lang)) = true) :
    loadTranslations self origin fetch lang =
      .ok (.obj [], I18n.mk (.obj []) self.currentLang) := by
  unfold requestUrl at h
  cases ho : fetch (getLocalesUrl origin (if lang = "uk" then "uk" else "en")) with
  | rejected => simp only [loadTranslations, loadTranslationsTry, ho]
  | response status body =>
    rw [ho] at h
    simp only [fetchFailed, Bool.or_eq_true] at h
    by_cases hs : (!responseOk status) = true
    · simp only [loadTranslations, loadTranslationsTry, ho, hs, if_true]
    · cases body with
      | none => simp [loadTranslations, loadTranslationsTry, ho, hs]
      | some b =>
        rcases h with h | h
        · exact absurd h hs
        · simp at h

/-- C4: when the fetch fails, `loadTranslations` completes normally, returns
the empty mapping and stores the empty mapping in place of the former
bundle. -/
theorem loadTranslations_failure (self : I18n) (origin : String)
    (fetch : String → FetchOutcome) (lang : String)
    (h : fetchFailed (fetch (requestUrl origin lang)) = true) :
    ∃ after, loadTranslations self origin fetch lang = .ok (.obj [], after)
      ∧ after.translations = .obj [] := by
  refine ⟨I18n.mk (.obj []) self.currentLang, ?_, rfl⟩
  unfold requestUrl at h
  cases ho : fetch (getLocalesUrl origin (if lang = "uk" then "uk" else "en")) with
  | rejected => simp only [loadTranslations, loadTranslationsTry, ho]
  | response status body =>
    rw [ho] at h
    simp only [fetchFailed, Bool.or_eq_true] at h
    by_cases hs : (!responseOk status) = true
    · simp only [loadTranslations, loadTranslationsTry, ho, hs, if_true]
    · cases body with
      | none => simp [loadTranslations, loadTranslationsTry, ho, hs]
      | some b =>
        rcases h with h | h
        · exact absurd h hs
        · simp at h

/-- A 404 for `uk` over a loaded bundle leaves the empty mapping. -/
theorem loadTranslations_failure_witness :
    fetchFailed (fetch404 (requestUrl "http://localhost:1234" "uk")) = true
    ∧ ∃ after, loadTranslations (I18n.mk exampleBundle "en") "http://localhost:1234"
        fetch404 "uk" = .ok (.obj [], after) ∧ after.translations = .obj [] :=
  ⟨rfl, loadTranslations_failure (I18n.mk exampleBundle "en") "http://localhost:1234"
    fetch404 "uk" rfl⟩

/-- On success `loadTranslations` stores the parsed bundle and the requested
locale together and returns the bundle. -/
theorem loadTranslations_success (self : I18n) (origin : String)
    (fetch : String → FetchOutcome) (lang : String) (status : Nat) (parsed : JSVal)
    (h : fetch (requestUrl origin lang) = .response status (some parsed))
    (hok : responseOk status = true) :
    loadTranslations self origin fetch lang = .ok (parsed, I18n.mk parsed lang) := by
  unfold requestUrl at h
  simp [loadTranslations, loadTranslationsTry, h, hok]

/-- C3, the code at a failing load: from a translator whose locale is `en`,
`loadTranslations('uk')` answered by a 404 stores the empty mapping and
leaves `currentLang` at `en`; the bundle changed and the locale did not. -/
theorem loadTranslations_failure_keeps_currentLang :
    loadTranslations (I18n.mk exampleBundle "en") "http://localhost:1234" fetch404 "uk"
      = .ok (.obj [], I18n.mk (.obj []) "en")
    ∧ (I18n.mk (.obj []) "en").currentLang ≠ "uk" :=
  ⟨rfl, by decide⟩

theorem loadTranslations_current (self : I18n) (origin : String)
    (fetch : String → FetchOutcome) :
    ∃ v after, loadTranslations self origin fetch self.currentLang = .ok (v, after)
      ∧ after.currentLang = self.currentLang := by
  cases ho : fetch (getLocalesUrl origin
      (if self.currentLang = "uk" then "uk" else "en")) with
  | rejected =>
    simp only [loadTranslations, loadTranslationsTry, ho]
    exact ⟨_, _, rfl, rfl⟩
  | response status body =>
    by_cases hs : (!responseOk status) = true
    · simp only [loadTranslations, loadTranslationsTry, ho, hs, if_true]
      exact ⟨_, _, rfl, rfl⟩
    · cases body with
      | none =>
        simp only [loadTranslations, loadTranslationsTry, ho, hs]
        exact ⟨_, _, rfl, rfl⟩
      | some b =>
        simp only [loadTranslations, loadTranslationsTry, ho, hs]
        exact ⟨_, _, rfl, rfl⟩

/-- Within `init` the locale is assigned before the load, so `init` leaves
the translator with the detected locale, whatever the load did. -/
theorem init_currentLang (rt : Runtime) (origin pathname : String)
    (fetch : String → FetchOutcome) (self : I18n) (doc : Node) :
    (init rt origin pathname fetch self doc).self.currentLang =
      detectLanguage rt pathname := by
  obtain ⟨v, after, hload, hlang⟩ := loadTranslations_current
    (I18n.mk self.translations (detectLanguage rt pathname)) origin fetch
  simp only at hload hlang
  simp only [init, hload]
  rcases applyTranslations rt after doc with ⟨doc1, ok⟩
  cases ok <;> exact hlang

/-! ## Active link -/

theorem active_mem_classListToggle (cls : List String) (force : Bool) :
    "active" ∈ classListToggle cls "active" force ↔ force = true := by
  unfold classListToggle
  cases force with
  | true =>
    by_cases h : "active" ∈ cls
    · simp [h]
    · simp [h]
  | false => simp

theorem mem_classListToggle_of_ne (cls : List String) (tok c : String) (force : Bool)
    (hne : c ≠ tok) : c ∈ classListToggle cls tok force ↔ c ∈ cls := by
  unfold classListToggle
  cases force with
  | true =>
    by_cases h : tok ∈ cls
    · simp [h]
    · simp [h, hne]
  | false => simp [hne]

theorem updateLink_active (self : I18n) (cls : List String) (attrs : List (String × String))
    (hl : self.currentLang = "en" ∨ self.currentLang = "uk") :
    "active" ∈ updateLink self cls attrs ↔
      getAttribute attrs "data-lang" = some self.currentLang := by
  unfold updateLink
  rw [active_mem_classListToggle]
  rcases hl with h | h
  · rw [h]
    simp
  · rw [h]
    simp

mutual
theorem updateLanguageLinks_mem (self : I18n)
    (hl : self.currentLang = "en" ∨ self.currentLang = "uk") :
    ∀ (doc : Node) (cls : List String) (attrs : List (String × String)) (ch : List Node),
      Node.element cls attrs ch ∈ elementsOf (updateLanguageLinks self doc) →
      "lang-link" ∈ cls →
      ("active" ∈ cls ↔ getAttribute attrs "data-lang" = some self.currentLang)
  | .text _, _, _, _, hmem, _ => by simp [updateLanguageLinks, elementsOf] at hmem
  | .comment _, _, _, _, hmem, _ => by simp [updateLanguageLinks, elementsOf] at hmem
  | .element c a chs, cls, attrs, ch, hmem, hlink => by
    simp only [updateLanguageLinks, elementsOf, List.mem_cons] at hmem
    rcases hmem with heq | hsub
    · injection heq with h1 h2 h3
      subst h1 h2
      by_cases hc : "lang-link" ∈ c
      · rw [if_pos hc]
        exact updateLink_active self c attrs hl
      · rw [if_neg hc] at hlink
        exact absurd hlink hc
    · exact updateLanguageLinksList_mem self hl chs cls attrs ch hsub hlink
theorem updateLanguageLinksList_mem (self : I18n)
    (hl : self.currentLang = "en" ∨ self.currentLang = "uk") :
    ∀ (l : List Node) (cls : List String) (attrs : List (String × String)) (ch : List Node),
      Node.element cls attrs ch ∈ elementsOfList (updateLanguageLinksList self l) →
      "lang-link" ∈ cls →
      ("active" ∈ cls ↔ getAttribute attrs "data-lang" = some self.currentLang)
  | [], _, _, _, hmem, _ => by simp [updateLanguageLinksList, elementsOfList] at hmem
  | n :: ns, cls, attrs, ch, hmem, hlink => by
    simp only [updateLanguageLinksList, elementsOfList, List.mem_append] at hmem
    rcases hmem with h | h
    · exact updateLanguageLinks_mem self hl n cls attrs ch h hlink
    · exact updateLanguageLinksList_mem self hl ns cls attrs ch h hlink
end

/-- C9: with the current locale one of `en`, `uk`, every element of class
`lang-link` of the document after `updateLanguageLinks` has the class
`active` exactly when its `data-lang` attribute is the current locale. -/
theorem updateLanguageLinks_active (self : I18n) (doc : Node)
    (hl : self.currentLang = "en" ∨ self.currentLang = "uk")
    (cls : List String) (attrs : List (String × String)) (ch : List Node)
    (hmem : Node.element cls attrs ch ∈ elementsOf (updateLanguageLinks self doc))
    (hlink : "lang-link" ∈ cls) :
    "active" ∈ cls ↔ getAttribute attrs "data-lang" = some self.currentLang :=
  updateLanguageLinks_mem self hl doc cls attrs ch hmem hlink

theorem exampleLinks_updated :
    updateLanguageLinks (I18n.mk (.obj []) "uk") exampleLinks =
      .element ["nav"] []
        [.element ["lang-link", "active"] [("data-lang", "uk")] [.text "UA"],
         .element ["lang-link"] [("data-lang", "en")] [.text "EN"]] := by
  simp [updateLanguageLinks, updateLanguageLinksList, exampleLinks, updateLink,
    classListToggle, getAttribute]

/-- With the current locale `uk`, the link to `uk` becomes active and the
link to `en` loses the class. -/
theorem updateLanguageLinks_active_witness :
    ((I18n.mk (.obj []) "uk").currentLang = "en" ∨ (I18n.mk (.obj []) "uk").currentLang = "uk")
    ∧ Node.element ["lang-link", "active"] [("data-lang", "uk")] [.text "UA"]
        ∈ elementsOf (updateLanguageLinks (I18n.mk (.obj []) "uk") exampleLinks)
    ∧ Node.element ["lang-link"] [("data-lang", "en")] [.text "EN"]
        ∈ elementsOf (updateLanguageLinks (I18n.mk (.obj []) "uk") exampleLinks)
    ∧ ("active" ∈ ["lang-link", "active"] ↔
        getAttribute [("data-lang", "uk")] "data-lang" = some (I18n.mk (.obj []) "uk").currentLang)
    ∧ ("active" ∈ ["lang-link"] ↔
        getAttribute [("data-lang", "en")] "data-lang" = some (I18n.mk (.obj []) "uk").currentLang) :=
  have h1 : Node.element ["lang-link", "active"] [("data-lang", "uk")] [.text "UA"]
      ∈ elementsOf (updateLanguageLinks (I18n.mk (.obj []) "uk") exampleLinks) := by
    rw [exampleLinks_updated]
    simp [elementsOf, elementsOfList]
  have h2 : Node.element ["lang-link"] [("data-lang", "en")] [.text "EN"]
      ∈ elementsOf (updateLanguageLinks (I18n.mk (.obj []) "uk") exampleLinks) := by
    rw [exampleLinks_updated]
    simp [elementsOf, elementsOfList]
  ⟨Or.inr rfl, h1, h2,
   updateLanguageLinks_active (I18n.mk (.obj []) "uk") exampleLinks (Or.inr rfl) _ _ _ h1
     (by simp),
   updateLanguageLinks_active (I18n.mk (.obj []) "uk") exampleLinks (Or.inr rfl) _ _ _ h2
     (by simp)⟩

/-! ## Applying translations -/

theorem getAttribute_setAttribute_same (attrs : List (String × String)) (name value : String) :
    getAttribute (setAttribute attrs name value) name = some value := by
  induction attrs with
  | nil => simp [setAttribute, getAttribute]
  | cons kv rest ih =>
    obtain ⟨k, v⟩ := kv
    by_cases h : k = name
    · simp [setAttribute, getAttribute, h]
    · simp [setAttribute, getAttribute, h, ih]

theorem getAttribute_setAttribute_other (attrs : List (String × String))
    (name other value : String) (hne : other ≠ name) :
    getAttribute (setAttribute attrs name value) other = getAttribute attrs other := by
  induction attrs with
  | nil => simp [setAttribute, getAttribute, Ne.symm hne]
  | cons kv rest ih =>
    obtain ⟨k, v⟩ := kv
    by_cases h : k = name
    · subst h
      simp [setAttribute, getAttribute, Ne.symm hne]
    · by_cases h2 : k = other
      · subst h2
        simp [setAttribute, getAttribute, h]
      · simp [setAttribute, getAttribute, h, h2, ih]

theorem setAttribute_of_getAttribute (attrs : List (String × String)) (name value : String)
    (h : getAttribute attrs name = some value) : setAttribute attrs name value = attrs := by
  induction attrs with
  | nil => simp [getAttribute] at h
  | cons kv rest ih =>
    obtain ⟨k, v⟩ := kv
    by_cases hk : k = name
    · simp only [getAttribute, hk, if_true, Option.some.injEq] at h
      simp [setAttribute, hk, h]
    · simp only [getAttribute, hk, if_false] at h
      simp [setAttribute, hk, ih h]

theorem resolveOr_idem (rt : Runtime) (self : I18n) (key s : String) :
    resolveOr rt self key (resolveOr rt self key s) = resolveOr rt self key s := by
  unfold resolveOr
  cases getNestedValue rt self.translations key <;> rfl

theorem textContentList_setTextContent (s : String) :
    textContentList (setTextContent s) = s := by
  unfold setTextContent
  split_ifs with h
  · simp [textContentList, h]
  · simp [textContentList, textContent]

theorem applyAttrDone_marker (rt : Runtime) (self : I18n) (marker target other : String)
    (attrs : List (String × String)) (hne : other ≠ target) :
    getAttribute (applyAttrDone rt self marker target attrs) other = getAttribute attrs other := by
  unfold applyAttrDone
  cases getAttribute attrs marker with
  | none => rfl
  | some key =>
    by_cases hk : key = ""
    · simp [hk]
    · simp only [hk, if_false]
      exact getAttribute_setAttribute_other _ _ _ _ hne

theorem applyAttrDone_of_key (rt : Runtime) (self : I18n) (marker target key : String)
    (attrs : List (String × String)) (hm : getAttribute attrs marker = some key)
    (hk : key ≠ "") :
    applyAttrDone rt self marker target attrs =
      setAttribute attrs target
        (resolveOr rt self key (orEmpty (getAttribute attrs target))) := by
  simp [applyAttrDone, hm, hk]

theorem applyAttrDone_of_no_key (rt : Runtime) (self : I18n) (marker target : String)
    (attrs : List (String × String))
    (hm : getAttribute attrs marker = none ∨ getAttribute attrs marker = some "") :
    applyAttrDone rt self marker target attrs = attrs := by
  rcases hm with hm | hm <;> simp [applyAttrDone, hm]

theorem marker_cases (marker : String) (attrs : List (String × String)) :
    (getAttribute attrs marker = none ∨ getAttribute attrs marker = some "")
    ∨ ∃ key, getAttribute attrs marker = some key ∧ key ≠ "" := by
  cases hm : getAttribute attrs marker with
  | none => exact Or.inl (Or.inl rfl)
  | some key =>
    by_cases hk : key = ""
    · exact Or.inl (Or.inr (by rw [hk]))
    · exact Or.inr ⟨key, rfl, hk⟩

/-- The attribute loop run twice on an element's attributes is the loop run
once. -/
theorem applyAttrDone_idem (rt : Runtime) (self : I18n) (marker target : String)
    (attrs : List (String × String)) (hne : marker ≠ target) :
    applyAttrDone rt self marker target (applyAttrDone rt self marker target attrs) =
      applyAttrDone rt self marker target attrs := by
  rcases marker_cases marker attrs with hm | ⟨key, hm, hk⟩
  · rw [applyAttrDone_of_no_key rt self marker target attrs hm,
      applyAttrDone_of_no_key rt self marker target attrs hm]
  · rw [applyAttrDone_of_key rt self marker target key attrs hm hk]
    have hm2 : getAttribute (setAttribute attrs target
        (resolveOr rt self key (orEmpty (getAttribute attrs target)))) marker = some key := by
      rw [getAttribute_setAttribute_other _ _ _ _ hne, hm]
    rw [applyAttrDone_of_key rt self marker target key _ hm2 hk,
      getAttribute_setAttribute_same, orEmpty_some, resolveOr_idem]
    exact setAttribute_of_getAttribute _ _ _ (getAttribute_setAttribute_same _ _ _)

/-- Attributes that the loop for `marker` leaves alone are still left alone
after another attribute `name` has been set. -/
theorem applyAttrDone_fixed_setAttribute (rt : Runtime) (self : I18n)
    (marker target name value : String) (attrs : List (String × String))
    (h1 : marker ≠ name) (h2 : target ≠ name)
    (hfix : applyAttrDone rt self marker target attrs = attrs) :
    applyAttrDone rt self marker target (setAttribute attrs name value) =
      setAttribute attrs name value := by
  rcases marker_cases marker attrs with hm | ⟨key, hm, hk⟩
  · apply applyAttrDone_of_no_key
    rw [getAttribute_setAttribute_other _ _ _ _ h1]
    exact hm
  · have hm2 : getAttribute (setAttribute attrs name value) marker = some key := by
      rw [getAttribute_setAttribute_other _ _ _ _ h1, hm]
    rw [applyAttrDone_of_key rt self marker target key attrs hm hk] at hfix
    have hget : getAttribute attrs target =
        some (resolveOr rt self key (orEmpty (getAttribute attrs target))) := by
      have := getAttribute_setAttribute_same attrs target
        (resolveOr rt self key (orEmpty (getAttribute attrs target)))
      rw [hfix] at this
      exact this
    rw [applyAttrDone_of_key rt self marker target key _ hm2 hk,
      getAttribute_setAttribute_other _ _ _ _ h2]
    apply setAttribute_of_getAttribute
    rw [getAttribute_setAttribute_other _ _ _ _ h2]
    exact hget

/-- Attributes that the loop for one marker leaves alone are still left alone
after the loop for another marker. -/
theorem applyAttrDone_fixed_applyAttrDone (rt : Runtime) (self : I18n)
    (m1 t1 m2 t2 : String) (attrs : List (String × String))
    (h1 : m1 ≠ t2) (h2 : t1 ≠ t2)
    (hfix : applyAttrDone rt self m1 t1 attrs = attrs) :
    applyAttrDone rt self m1 t1 (applyAttrDone rt self m2 t2 attrs) =
      applyAttrDone rt self m2 t2 attrs := by
  rcases marker_cases m2 attrs with hm | ⟨key, hm, hk⟩
  · rw [applyAttrDone_of_no_key rt self m2 t2 attrs hm]
    exact hfix
  · rw [applyAttrDone_of_key rt self m2 t2 key attrs hm hk]
    exact applyAttrDone_fixed_setAttribute rt self m1 t1 t2 _ attrs h1 h2 hfix

mutual
theorem textContent_applyAttrsDone (rt : Runtime) (self : I18n) (marker target : String) :
    ∀ n : Node, textContent (applyAttrsDone rt self marker target n) = textContent n
  | .text _ => by simp [applyAttrsDone]
  | .comment _ => by simp [applyAttrsDone]
  | .element _ _ ch => by
    simp only [applyAttrsDone, textContent]
    exact textContentList_applyAttrsDoneList rt self marker target ch
theorem textContentList_applyAttrsDoneList (rt : Runtime) (self : I18n) (marker target : String) :
    ∀ l : List Node,
      textContentList (applyAttrsDoneList rt self marker target l) = textContentList l
  | [] => by simp [applyAttrsDoneList]
  | n :: ns => by
    simp only [applyAttrsDoneList, textContentList]
    rw [textContent_applyAttrsDone rt self marker target n,
      textContentList_applyAttrsDoneList rt self marker target ns]
end

theorem applyAttrsDoneList_setTextContent (rt : Runtime) (self : I18n) (marker target s : String) :
    applyAttrsDoneList rt self marker target (setTextContent s) = setTextContent s := by
  unfold setTextContent
  split_ifs <;> simp [applyAttrsDoneList, applyAttrsDone]

theorem applyTextDone_of_key (rt : Runtime) (self : I18n) (cls : List String)
    (attrs : List (String × String)) (ch : List Node) (key : String)
    (hm : getAttribute attrs "data-i18n" = some key) (hk : key ≠ "") :
    applyTextDone rt self (.element cls attrs ch) =
      .element cls attrs (setTextContent (resolveOr rt self key (textContentList ch))) := by
  simp [applyTextDone, hm, hk]

theorem applyTextDone_of_no_key (rt : Runtime) (self : I18n) (cls : List String)
    (attrs : List (String × String)) (ch : List Node)
    (hm : getAttribute attrs "data-i18n" = none ∨ getAttribute attrs "data-i18n" = some "") :
    applyTextDone rt self (.element cls attrs ch) =
      .element cls attrs (applyTextDoneList rt self ch) := by
  rcases hm with hm | hm <;> simp [applyTextDone, hm]

mutual
theorem applyTextDone_idem (rt : Runtime) (self : I18n) :
    ∀ n : Node, applyTextDone rt self (applyTextDone rt self n) = applyTextDone rt self n
  | .text _ => by simp [applyTextDone]
  | .comment _ => by simp [applyTextDone]
  | .element cls attrs ch => by
    rcases marker_cases "data-i18n" attrs with hm | ⟨key, hm, hk⟩
    · rw [applyTextDone_of_no_key rt self cls attrs ch hm,
        applyTextDone_of_no_key rt self cls attrs _ hm, applyTextDoneList_idem rt self ch]
    · rw [applyTextDone_of_key rt self cls attrs ch key hm hk,
        applyTextDone_of_key rt self cls attrs _ key hm hk,
        textContentList_setTextContent, resolveOr_idem]
theorem applyTextDoneList_idem (rt : Runtime) (self : I18n) :
    ∀ l : List Node, applyTextDoneList rt self (applyTextDoneList rt self l) = applyTextDoneList rt self l
  | [] => by simp [applyTextDoneList]
  | n :: ns => by
    simp only [applyTextDoneList]
    rw [applyTextDone_idem rt self n, applyTextDoneList_idem rt self ns]
end

mutual
theorem applyTextDone_applyAttrsDone (rt : Runtime) (self : I18n) (marker target : String)
    (hne : "data-i18n" ≠ target) :
    ∀ n : Node, applyTextDone rt self (applyAttrsDone rt self marker target n) =
      applyAttrsDone rt self marker target (applyTextDone rt self n)
  | .text _ => by simp [applyTextDone, applyAttrsDone]
  | .comment _ => by simp [applyTextDone, applyAttrsDone]
  | .element cls attrs ch => by
    have hget := applyAttrDone_marker rt self marker target "data-i18n" attrs hne
    rcases marker_cases "data-i18n" attrs with hm | ⟨key, hm, hk⟩
    · rw [applyTextDone_of_no_key rt self cls attrs ch hm]
      simp only [applyAttrsDone]
      rw [applyTextDone_of_no_key rt self cls _ _ (by rw [hget]; exact hm),
        applyTextDoneList_applyAttrsDoneList rt self marker target hne ch]
    · rw [applyTextDone_of_key rt self cls attrs ch key hm hk]
      simp only [applyAttrsDone]
      rw [applyTextDone_of_key rt self cls _ _ key (by rw [hget]; exact hm) hk,
        textContentList_applyAttrsDoneList, applyAttrsDoneList_setTextContent]
theorem applyTextDoneList_applyAttrsDoneList (rt : Runtime) (self : I18n) (marker target : String)
    (hne : "data-i18n" ≠ target) :
    ∀ l : List Node, applyTextDoneList rt self (applyAttrsDoneList rt self marker target l) =
      applyAttrsDoneList rt self marker target (applyTextDoneList rt self l)
  | [] => by simp [applyTextDoneList, applyAttrsDoneList]
  | n :: ns => by
    simp only [applyTextDoneList, applyAttrsDoneList]
    rw [applyTextDone_applyAttrsDone rt self marker target hne n,
      applyTextDoneList_applyAttrsDoneList rt self marker target hne ns]
end

theorem applyTextDone_setLang (rt : Runtime) (self : I18n) (value : String) (n : Node) :
    applyTextDone rt self (setLang value n) = setLang value (applyTextDone rt self n) := by
  cases n with
  | text _ => simp [applyTextDone, setLang]
  | comment _ => simp [applyTextDone, setLang]
  | element cls attrs ch =>
    have hget : getAttribute (setAttribute attrs "lang" value) "data-i18n" =
        getAttribute attrs "data-i18n" :=
      getAttribute_setAttribute_other _ _ _ _ (by decide)
    rcases marker_cases "data-i18n" attrs with hm | ⟨key, hm, hk⟩
    · rw [applyTextDone_of_no_key rt self cls attrs ch hm]
      simp only [setLang]
      rw [applyTextDone_of_no_key rt self cls _ _ (by rw [hget]; exact hm)]
    · rw [applyTextDone_of_key rt self cls attrs ch key hm hk]
      simp only [setLang]
      rw [applyTextDone_of_key rt self cls _ _ key (by rw [hget]; exact hm) hk]

mutual
theorem applyAttrsDone_idem (rt : Runtime) (self : I18n) (marker target : String)
    (hne : marker ≠ target) :
    ∀ n : Node, applyAttrsDone rt self marker target (applyAttrsDone rt self marker target n) =
      applyAttrsDone rt self marker target n
  | .text _ => by simp [applyAttrsDone]
  | .comment _ => by simp [applyAttrsDone]
  | .element cls attrs ch => by
    simp only [applyAttrsDone]
    rw [applyAttrDone_idem rt self marker target attrs hne,
      applyAttrsDoneList_idem rt self marker target hne ch]
theorem applyAttrsDoneList_idem (rt : Runtime) (self : I18n) (marker target : String)
    (hne : marker ≠ target) :
    ∀ l : List Node,
      applyAttrsDoneList rt self marker target (applyAttrsDoneList rt self marker target l) =
        applyAttrsDoneList rt self marker target l
  | [] => by simp [applyAttrsDoneList]
  | n :: ns => by
    simp only [applyAttrsDoneList]
    rw [applyAttrsDone_idem rt self marker target hne n,
      applyAttrsDoneList_idem rt self marker target hne ns]
end

mutual
theorem applyAttrsDone_fixed_applyAttrsDone (rt : Runtime) (self : I18n) (m1 t1 m2 t2 : String)
    (h1 : m1 ≠ t2) (h2 : t1 ≠ t2) :
    ∀ n : Node, applyAttrsDone rt self m1 t1 n = n →
      applyAttrsDone rt self m1 t1 (applyAttrsDone rt self m2 t2 n) = applyAttrsDone rt self m2 t2 n
  | .text _, _ => by simp [applyAttrsDone]
  | .comment _, _ => by simp [applyAttrsDone]
  | .element cls attrs ch, hfix => by
    simp only [applyAttrsDone, Node.element.injEq, true_and] at hfix
    simp only [applyAttrsDone]
    rw [applyAttrDone_fixed_applyAttrDone rt self m1 t1 m2 t2 attrs h1 h2 hfix.1,
      applyAttrsDoneList_fixed_applyAttrsDoneList rt self m1 t1 m2 t2 h1 h2 ch hfix.2]
theorem applyAttrsDoneList_fixed_applyAttrsDoneList (rt : Runtime) (self : I18n)
    (m1 t1 m2 t2 : String) (h1 : m1 ≠ t2) (h2 : t1 ≠ t2) :
    ∀ l : List Node, applyAttrsDoneList rt self m1 t1 l = l →
      applyAttrsDoneList rt self m1 t1 (applyAttrsDoneList rt self m2 t2 l) =
        applyAttrsDoneList rt self m2 t2 l
  | [], _ => by simp [applyAttrsDoneList]
  | n :: ns, hfix => by
    simp only [applyAttrsDoneList, List.cons.injEq] at hfix
    simp only [applyAttrsDoneList]
    rw [applyAttrsDone_fixed_applyAttrsDone rt self m1 t1 m2 t2 h1 h2 n hfix.1,
      applyAttrsDoneList_fixed_applyAttrsDoneList rt self m1 t1 m2 t2 h1 h2 ns hfix.2]
end

theorem applyAttrsDone_fixed_setLang (rt : Runtime) (self : I18n) (marker target value : String)
    (h1 : marker ≠ "lang") (h2 : target ≠ "lang") (n : Node)
    (hfix : applyAttrsDone rt self marker target n = n) :
    applyAttrsDone rt self marker target (setLang value n) = setLang value n := by
  cases n with
  | text _ => simp [applyAttrsDone, setLang]
  | comment _ => simp [applyAttrsDone, setLang]
  | element cls attrs ch =>
    simp only [applyAttrsDone, Node.element.injEq, true_and] at hfix
    simp only [setLang, applyAttrsDone]
    rw [applyAttrDone_fixed_setAttribute rt self marker target "lang" value attrs h1 h2 hfix.1,
      hfix.2]

theorem setLang_idem (value : String) (n : Node) :
    setLang value (setLang value n) = setLang value n := by
  cases n with
  | text _ => rfl
  | comment _ => rfl
  | element cls attrs ch =>
    simp only [setLang]
    rw [setAttribute_of_getAttribute _ _ _ (getAttribute_setAttribute_same _ _ _)]

theorem applyTranslationsDone_idem (rt : Runtime) (self : I18n) (doc : Node) :
    applyTranslationsDone rt self (applyTranslationsDone rt self doc) =
      applyTranslationsDone rt self doc := by
  have hph : ("data-i18n-placeholder" : String) ≠ "placeholder" := by decide
  have halt : ("data-i18n-alt" : String) ≠ "alt" := by decide
  simp only [applyTranslationsDone]
  generalize (if self.currentLang = "uk" then "uk" else "en") = lang
  rw [applyTextDone_setLang,
    applyTextDone_applyAttrsDone rt self "data-i18n-alt" "alt" (by decide),
    applyTextDone_applyAttrsDone rt self "data-i18n-placeholder" "placeholder" (by decide),
    applyTextDone_idem]
  generalize applyTextDone rt self doc = d1
  have h2 : applyAttrsDone rt self "data-i18n-placeholder" "placeholder"
      (setLang lang (applyAttrsDone rt self "data-i18n-alt" "alt"
        (applyAttrsDone rt self "data-i18n-placeholder" "placeholder" d1))) =
      setLang lang (applyAttrsDone rt self "data-i18n-alt" "alt"
        (applyAttrsDone rt self "data-i18n-placeholder" "placeholder" d1)) := by
    apply applyAttrsDone_fixed_setLang _ _ _ _ _ (by decide) (by decide)
    apply applyAttrsDone_fixed_applyAttrsDone _ _ _ _ _ _ (by decide) (by decide)
    exact applyAttrsDone_idem rt self _ _ hph d1
  rw [h2]
  generalize applyAttrsDone rt self "data-i18n-placeholder" "placeholder" d1 = d2
  have h3 : applyAttrsDone rt self "data-i18n-alt" "alt"
      (setLang lang (applyAttrsDone rt self "data-i18n-alt" "alt" d2)) =
      setLang lang (applyAttrsDone rt self "data-i18n-alt" "alt" d2) := by
    apply applyAttrsDone_fixed_setLang _ _ _ _ _ (by decide) (by decide)
    exact applyAttrsDone_idem rt self _ _ halt d2
  rw [h3, setLang_idem]

/-! ### The loops as run, against the documents they leave when they complete -/

theorem option_eq_ite (o : Option String) :
    o = if o.isSome = true then some (o.getD "") else none := by
  cases o <;> simp

theorem toStr_t (rt : Runtime) (self : I18n) (key s : String) :
    toStr rt (t rt self key (.str s)) =
      if converts rt self key = true then some (resolveOr rt self key s) else none := by
  simp only [t, converts, resolveOr]
  cases getNestedValue rt self.translations key <;> exact option_eq_ite _

theorem textContentArg_t (rt : Runtime) (self : I18n) (key s : String) :
    textContentArg rt (t rt self key (.str s)) =
      if converts rt self key = true then some (resolveOr rt self key s) else none := by
  rw [← toStr_t]
  simp only [t]
  cases getNestedValue rt self.translations key <;> simp [nullish, textContentArg]

theorem keyConverts_of_key (rt : Runtime) (self : I18n) (marker key : String)
    (attrs : List (String × String)) (hm : getAttribute attrs marker = some key)
    (hk : key ≠ "") : keyConverts rt self marker attrs = converts rt self key := by
  simp [keyConverts, hm, hk]

theorem keyConverts_of_no_key (rt : Runtime) (self : I18n) (marker : String)
    (attrs : List (String × String))
    (hm : getAttribute attrs marker = none ∨ getAttribute attrs marker = some "") :
    keyConverts rt self marker attrs = true := by
  rcases hm with hm | hm <;> simp [keyConverts, hm]

mutual
theorem visitDetached_eq (rt : Runtime) (self : I18n) :
    ∀ n : Node, visitDetached rt self n = allConvert rt self "data-i18n" n
  | .text _ => by simp [visitDetached, allConvert]
  | .comment _ => by simp [visitDetached, allConvert]
  | .element cls attrs ch => by
    have ih := visitDetachedList_eq rt self ch
    rcases marker_cases "data-i18n" attrs with hm | ⟨key, hm, hk⟩
    · rw [allConvert, keyConverts_of_no_key rt self _ attrs hm, ← ih]
      rcases hm with hm | hm <;> simp [visitDetached, hm]
    · rw [allConvert, keyConverts_of_key rt self _ key attrs hm hk, ← ih]
      simp only [visitDetached, hm, hk, if_false, textContentArg_t]
      cases converts rt self key <;> simp
theorem visitDetachedList_eq (rt : Runtime) (self : I18n) :
    ∀ l : List Node, visitDetachedList rt self l = allConvertList rt self "data-i18n" l
  | [] => by simp [visitDetachedList, allConvertList]
  | n :: ns => by
    simp only [visitDetachedList, allConvertList]
    rw [visitDetached_eq rt self n, visitDetachedList_eq rt self ns]
end

mutual
theorem applyText_completed (rt : Runtime) (self : I18n) :
    ∀ n : Node, (applyText rt self n).2 = allConvert rt self "data-i18n" n
  | .text _ => by simp [applyText, allConvert]
  | .comment _ => by simp [applyText, allConvert]
  | .element cls attrs ch => by
    have ih := applyTextList_completed rt self ch
    rcases marker_cases "data-i18n" attrs with hm | ⟨key, hm, hk⟩
    · rw [allConvert, keyConverts_of_no_key rt self _ attrs hm, ← ih]
      rcases hm with hm | hm <;> simp [applyText, hm]
    · rw [allConvert, keyConverts_of_key rt self _ key attrs hm hk,
        ← visitDetachedList_eq rt self ch]
      simp only [applyText, hm, hk, if_false, textContentArg_t]
      cases converts rt self key <;> simp
theorem applyTextList_completed (rt : Runtime) (self : I18n) :
    ∀ l : List Node, (applyTextList rt self l).2 = allConvertList rt self "data-i18n" l
  | [] => by simp [applyTextList, allConvertList]
  | n :: ns => by
    have h1 := applyText_completed rt self n
    have h2 := applyTextList_completed rt self ns
    simp only [applyTextList, allConvertList]
    rw [← h1, ← h2]
    rcases applyText rt self n with ⟨n1, ok⟩
    cases ok <;> simp
end

mutual
theorem applyText_doc (rt : Runtime) (self : I18n) :
    ∀ n : Node, allConvert rt self "data-i18n" n = true →
      (applyText rt self n).1 = applyTextDone rt self n
  | .text _, _ => by simp [applyText, applyTextDone]
  | .comment _, _ => by simp [applyText, applyTextDone]
  | .element cls attrs ch, h => by
    rw [allConvert, Bool.and_eq_true] at h
    rcases marker_cases "data-i18n" attrs with hm | ⟨key, hm, hk⟩
    · have ih := applyTextList_doc rt self ch h.2
      rw [applyTextDone_of_no_key rt self cls attrs ch hm, ← ih]
      rcases hm with hm | hm <;> simp [applyText, hm]
    · rw [applyTextDone_of_key rt self cls attrs ch key hm hk]
      have hc : converts rt self key = true := by
        rw [← keyConverts_of_key rt self _ key attrs hm hk]
        exact h.1
      simp [applyText, hm, hk, textContentArg_t, hc]
theorem applyTextList_doc (rt : Runtime) (self : I18n) :
    ∀ l : List Node, allConvertList rt self "data-i18n" l = true →
      (applyTextList rt self l).1 = applyTextDoneList rt self l
  | [], _ => by simp [applyTextList, applyTextDoneList]
  | n :: ns, h => by
    rw [allConvertList, Bool.and_eq_true] at h
    have h1 := applyText_doc rt self n h.1
    have h2 := applyTextList_doc rt self ns h.2
    have h3 := applyText_completed rt self n
    rw [h.1] at h3
    simp only [applyTextList, applyTextDoneList]
    rw [← h1, ← h2]
    generalize applyText rt self n = p at h3 ⊢
    obtain ⟨n1, ok⟩ := p
    simp only at h3
    subst h3
    simp
end

theorem applyAttr_eq (rt : Runtime) (self : I18n) (marker target : String)
    (attrs : List (String × String)) :
    applyAttr rt self marker target attrs =
      if keyConverts rt self marker attrs = true then
        some (applyAttrDone rt self marker target attrs)
      else none := by
  rcases marker_cases marker attrs with hm | ⟨key, hm, hk⟩
  · rw [keyConverts_of_no_key rt self marker attrs hm,
      applyAttrDone_of_no_key rt self marker target attrs hm]
    rcases hm with hm | hm <;> simp [applyAttr, hm]
  · rw [keyConverts_of_key rt self marker key attrs hm hk,
      applyAttrDone_of_key rt self marker target key attrs hm hk]
    simp only [applyAttr, hm, hk, if_false, toStr_t]
    cases converts rt self key <;> simp

mutual
theorem applyAttrs_completed (rt : Runtime) (self : I18n) (marker target : String) :
    ∀ n : Node, (applyAttrs rt self marker target n).2 = allConvert rt self marker n
  | .text _ => by simp [applyAttrs, allConvert]
  | .comment _ => by simp [applyAttrs, allConvert]
  | .element cls attrs ch => by
    have ih := applyAttrsList_completed rt self marker target ch
    simp only [applyAttrs, allConvert, applyAttr_eq]
    rw [← ih]
    cases keyConverts rt self marker attrs <;> simp
theorem applyAttrsList_completed (rt : Runtime) (self : I18n) (marker target : String) :
    ∀ l : List Node,
      (applyAttrsList rt self marker target l).2 = allConvertList rt self marker l
  | [] => by simp [applyAttrsList, allConvertList]
  | n :: ns => by
    have h1 := applyAttrs_completed rt self marker target n
    have h2 := applyAttrsList_completed rt self marker target ns
    simp only [applyAttrsList, allConvertList]
    rw [← h1, ← h2]
    rcases applyAttrs rt self marker target n with ⟨n1, ok⟩
    cases ok <;> simp
end

mutual
theorem applyAttrs_doc (rt : Runtime) (self : I18n) (marker target : String) :
    ∀ n : Node, allConvert rt self marker n = true →
      (applyAttrs rt self marker target n).1 = applyAttrsDone rt self marker target n
  | .text _, _ => by simp [applyAttrs, applyAttrsDone]
  | .comment _, _ => by simp [applyAttrs, applyAttrsDone]
  | .element cls attrs ch, h => by
    rw [allConvert, Bool.and_eq_true] at h
    have ih := applyAttrsList_doc rt self marker target ch h.2
    simp only [applyAttrs, applyAttrsDone, applyAttr_eq, h.1, if_true]
    rw [← ih]
theorem applyAttrsList_doc (rt : Runtime) (self : I18n) (marker target : String) :
    ∀ l : List Node, allConvertList rt self marker l = true →
      (applyAttrsList rt self marker target l).1 =
        applyAttrsDoneList rt self marker target l
  | [], _ => by simp [applyAttrsList, applyAttrsDoneList]
  | n :: ns, h => by
    rw [allConvertList, Bool.and_eq_true] at h
    have h1 := applyAttrs_doc rt self marker target n h.1
    have h2 := applyAttrsList_doc rt self marker target ns h.2
    have h3 := applyAttrs_completed rt self marker target n
    rw [h.1] at h3
    simp only [applyAttrsList, applyAttrsDoneList]
    rw [← h1, ← h2]
    generalize applyAttrs rt self marker target n = p at h3 ⊢
    obtain ⟨n1, ok⟩ := p
    simp only at h3
    subst h3
    simp
end

/-- The first loop as run, when every key converts: it completes and leaves
the document of `applyTextDone`. -/
theorem applyText_of_allConvert (rt : Runtime) (self : I18n) (n : Node)
    (hc : allConvert rt self "data-i18n" n = true) :
    applyText rt self n = (applyTextDone rt self n, true) := by
  have h1 := applyText_completed rt self n
  rw [hc] at h1
  exact Prod.ext (applyText_doc rt self n hc) h1

/-- An attribute loop as run, when every key converts: it completes and
leaves the document of `applyAttrsDone`. -/
theorem applyAttrs_of_allConvert (rt : Runtime) (self : I18n) (marker target : String)
    (n : Node) (hc : allConvert rt self marker n = true) :
    applyAttrs rt self marker target n = (applyAttrsDone rt self marker target n, true) := by
  have h1 := applyAttrs_completed rt self marker target n
  rw [hc] at h1
  exact Prod.ext (applyAttrs_doc rt self marker target n hc) h1

/-! ### Keys that convert, through the loops -/

theorem keyConverts_congr (rt : Runtime) (self : I18n) (marker : String)
    (a b : List (String × String)) (h : getAttribute a marker = getAttribute b marker) :
    keyConverts rt self marker a = keyConverts rt self marker b := by
  simp only [keyConverts, h]

theorem allConvertList_setTextContent (rt : Runtime) (self : I18n) (marker s : String) :
    allConvertList rt self marker (setTextContent s) = true := by
  unfold setTextContent
  split_ifs <;> simp [allConvertList, allConvert]

mutual
theorem allConvert_applyTextDone (rt : Runtime) (self : I18n) (marker : String) :
    ∀ n : Node, allConvert rt self marker n = true →
      allConvert rt self marker (applyTextDone rt self n) = true
  | .text _, _ => by simp [applyTextDone, allConvert]
  | .comment _, _ => by simp [applyTextDone, allConvert]
  | .element cls attrs ch, h => by
    rw [allConvert, Bool.and_eq_true] at h
    rcases marker_cases "data-i18n" attrs with hm | ⟨key, hm, hk⟩
    · rw [applyTextDone_of_no_key rt self cls attrs ch hm, allConvert, Bool.and_eq_true]
      exact ⟨h.1, allConvertList_applyTextDoneList rt self marker ch h.2⟩
    · rw [applyTextDone_of_key rt self cls attrs ch key hm hk, allConvert, Bool.and_eq_true]
      exact ⟨h.1, allConvertList_setTextContent rt self marker _⟩
theorem allConvertList_applyTextDoneList (rt : Runtime) (self : I18n) (marker : String) :
    ∀ l : List Node, allConvertList rt self marker l = true →
      allConvertList rt self marker (applyTextDoneList rt self l) = true
  | [], _ => by simp [applyTextDoneList, allConvertList]
  | n :: ns, h => by
    rw [allConvertList, Bool.and_eq_true] at h
    rw [applyTextDoneList, allConvertList, Bool.and_eq_true]
    exact ⟨allConvert_applyTextDone rt self marker n h.1,
      allConvertList_applyTextDoneList rt self marker ns h.2⟩
end

mutual
theorem allConvert_applyAttrsDone (rt : Runtime) (self : I18n) (marker m2 t2 : String)
    (hne : marker ≠ t2) :
    ∀ n : Node, allConvert rt self marker (applyAttrsDone rt self m2 t2 n) =
      allConvert rt self marker n
  | .text _ => by simp [applyAttrsDone]
  | .comment _ => by simp [applyAttrsDone]
  | .element cls attrs ch => by
    simp only [applyAttrsDone, allConvert]
    rw [allConvertList_applyAttrsDoneList rt self marker m2 t2 hne ch,
      keyConverts_congr rt self marker _ attrs
        (applyAttrDone_marker rt self m2 t2 marker attrs hne)]
theorem allConvertList_applyAttrsDoneList (rt : Runtime) (self : I18n)
    (marker m2 t2 : String) (hne : marker ≠ t2) :
    ∀ l : List Node, allConvertList rt self marker (applyAttrsDoneList rt self m2 t2 l) =
      allConvertList rt self marker l
  | [] => by simp [applyAttrsDoneList]
  | n :: ns => by
    simp only [applyAttrsDoneList, allConvertList]
    rw [allConvert_applyAttrsDone rt self marker m2 t2 hne n,
      allConvertList_applyAttrsDoneList rt self marker m2 t2 hne ns]
end

theorem allConvert_setLang (rt : Runtime) (self : I18n) (marker value : String)
    (hne : marker ≠ "lang") (n : Node) :
    allConvert rt self marker (setLang value n) = allConvert rt self marker n := by
  cases n with
  | text _ => rfl
  | comment _ => rfl
  | element cls attrs ch =>
    simp only [setLang, allConvert]
    rw [keyConverts_congr rt self marker _ attrs
      (getAttribute_setAttribute_other attrs "lang" marker value hne)]

/-- When every key of the three loops converts, `applyTranslations` completes
and leaves the document of `applyTranslationsDone`. -/
theorem applyTranslations_of_allConvert (rt : Runtime) (self : I18n) (doc : Node)
    (h1 : allConvert rt self "data-i18n" doc = true)
    (h2 : allConvert rt self "data-i18n-placeholder" (applyTextDone rt self doc) = true)
    (h3 : allConvert rt self "data-i18n-alt"
      (applyAttrsDone rt self "data-i18n-placeholder" "placeholder"
        (applyTextDone rt self doc)) = true) :
    applyTranslations rt self doc = (applyTranslationsDone rt self doc, true) := by
  unfold applyTranslations
  rw [applyText_of_allConvert rt self doc h1]
  simp only
  rw [applyAttrs_of_allConvert rt self _ _ _ h2]
  simp only
  rw [applyAttrs_of_allConvert rt self _ _ _ h3]
  rfl

/-- When `applyTranslations` completes, every key of the three loops
converted, and the document left is that of `applyTranslationsDone`. -/
theorem allConvert_of_completed (rt : Runtime) (self : I18n) (doc after : Node)
    (h : applyTranslations rt self doc = (after, true)) :
    allConvert rt self "data-i18n" doc = true
    ∧ allConvert rt self "data-i18n-placeholder" (applyTextDone rt self doc) = true
    ∧ allConvert rt self "data-i18n-alt"
      (applyAttrsDone rt self "data-i18n-placeholder" "placeholder"
        (applyTextDone rt self doc)) = true
    ∧ applyTranslationsDone rt self doc = after := by
  have c1 := applyText_completed rt self doc
  unfold applyTranslations at h
  generalize hp1 : applyText rt self doc = p1 at h c1
  obtain ⟨d1, ok1⟩ := p1
  cases ok1 with
  | false => simp at h
  | true =>
    simp only at h c1
    have h1 : allConvert rt self "data-i18n" doc = true := c1.symm
    have e1 : d1 = applyTextDone rt self doc := by
      have := applyText_of_allConvert rt self doc h1
      rw [hp1] at this
      exact congrArg Prod.fst this
    subst e1
    have c2 := applyAttrs_completed rt self "data-i18n-placeholder" "placeholder"
      (applyTextDone rt self doc)
    generalize hp2 : applyAttrs rt self "data-i18n-placeholder" "placeholder"
      (applyTextDone rt self doc) = p2 at h c2
    obtain ⟨d2, ok2⟩ := p2
    cases ok2 with
    | false => simp at h
    | true =>
      simp only at h c2
      have h2 := c2.symm
      have e2 : d2 = applyAttrsDone rt self "data-i18n-placeholder" "placeholder"
          (applyTextDone rt self doc) := by
        have := applyAttrs_of_allConvert rt self _ "placeholder" _ h2
        rw [hp2] at this
        exact congrArg Prod.fst this
      subst e2
      have c3 := applyAttrs_completed rt self "data-i18n-alt" "alt"
        (applyAttrsDone rt self "data-i18n-placeholder" "placeholder"
          (applyTextDone rt self doc))
      generalize hp3 : applyAttrs rt self "data-i18n-alt" "alt"
        (applyAttrsDone rt self "data-i18n-placeholder" "placeholder"
          (applyTextDone rt self doc)) = p3 at h c3
      obtain ⟨d3, ok3⟩ := p3
      cases ok3 with
      | false => simp at h
      | true =>
        simp only at h c3
        have h3 := c3.symm
        have e3 : d3 = applyAttrsDone rt self "data-i18n-alt" "alt"
            (applyAttrsDone rt self "data-i18n-placeholder" "placeholder"
              (applyTextDone rt self doc)) := by
          have := applyAttrs_of_allConvert rt self _ "alt" _ h3
          rw [hp3] at this
          exact congrArg Prod.fst this
        subst e3
        exact ⟨h1, h2, h3, congrArg Prod.fst h⟩

/-- C6, as amended: when `applyTranslations` completes, a second application
with the same bundle and current locale completes too and leaves the document
exactly as the first left it (children and text of every element, every
attribute, the `lang` attribute of the root). -/
theorem applyTranslations_idempotent_of_completed (rt : Runtime) (self : I18n)
    (doc after : Node) (h : applyTranslations rt self doc = (after, true)) :
    applyTranslations rt self after = (after, true) := by
  obtain ⟨h1, h2, h3, hd⟩ := allConvert_of_completed rt self doc after h
  have hfix : applyTranslationsDone rt self after = after := by
    rw [← hd]
    exact applyTranslationsDone_idem rt self doc
  have ht : applyTextDone rt self after = after := by
    rw [← hd]
    unfold applyTranslationsDone
    rw [applyTextDone_setLang,
      applyTextDone_applyAttrsDone rt self "data-i18n-alt" "alt" (by decide),
      applyTextDone_applyAttrsDone rt self "data-i18n-placeholder" "placeholder" (by decide),
      applyTextDone_idem]
  have hp : applyAttrsDone rt self "data-i18n-placeholder" "placeholder" after = after := by
    rw [← hd]
    unfold applyTranslationsDone
    apply applyAttrsDone_fixed_setLang _ _ _ _ _ (by decide) (by decide)
    apply applyAttrsDone_fixed_applyAttrsDone _ _ _ _ _ _ (by decide) (by decide)
    exact applyAttrsDone_idem rt self _ _ (by decide) _
  have k1 : allConvert rt self "data-i18n" after = true := by
    rw [← hd]
    unfold applyTranslationsDone
    rw [allConvert_setLang rt self _ _ (by decide),
      allConvert_applyAttrsDone rt self _ _ _ (by decide),
      allConvert_applyAttrsDone rt self _ _ _ (by decide)]
    exact allConvert_applyTextDone rt self _ doc h1
  have k2 : allConvert rt self "data-i18n-placeholder" after = true := by
    rw [← hd]
    unfold applyTranslationsDone
    rw [allConvert_setLang rt self _ _ (by decide),
      allConvert_applyAttrsDone rt self _ _ _ (by decide),
      allConvert_applyAttrsDone rt self _ _ _ (by decide)]
    exact h2
  have k3 : allConvert rt self "data-i18n-alt" after = true := by
    rw [← hd]
    unfold applyTranslationsDone
    rw [allConvert_setLang rt self _ _ (by decide),
      allConvert_applyAttrsDone rt self _ _ _ (by decide)]
    exact h3
  have hrun := applyTranslations_of_allConvert rt self after k1
    (by rw [ht]; exact k2) (by rw [ht, hp]; exact k3)
  rw [hrun, hfix]

/-- With the bundle of the example the page translates completely, and a
second application leaves it as it is. -/
theorem applyTranslations_idempotent_of_completed_witness :
    applyTranslations stdRuntime (I18n.mk exampleBundle "uk") nestedDoc =
      (.element [] [("lang", "uk")]
        [.element [] [("data-i18n", "outer.missing")] [.text "bold tail"],
         .element [] [("data-i18n", "a.b")] [.text "X"]], true)
    ∧ applyTranslations stdRuntime (I18n.mk exampleBundle "uk")
        (.element [] [("lang", "uk")]
          [.element [] [("data-i18n", "outer.missing")] [.text "bold tail"],
           .element [] [("data-i18n", "a.b")] [.text "X"]]) =
      (.element [] [("lang", "uk")]
        [.element [] [("data-i18n", "outer.missing")] [.text "bold tail"],
         .element [] [("data-i18n", "a.b")] [.text "X"]], true) :=
  ⟨rfl, applyTranslations_idempotent_of_completed stdRuntime (I18n.mk exampleBundle "uk")
    nestedDoc _ rfl⟩

/-- C6, as stated, fails: with a bundle whose entry `k` is a mapping that has a
member `toString`, the first application stops at the element translated by
`k` (already detached, still in the node list), before the element translated
by `a.b` and before `lang`; the second application no longer meets that
element and completes, so the document after two applications is not the
document after one. -/
theorem applyTranslations_not_idempotent :
    applyTranslations stdRuntime (I18n.mk throwingBundle "uk") nestedDoc =
      (.element [] []
        [.element [] [("data-i18n", "outer.missing")] [.text "bold tail"],
         .element [] [("data-i18n", "a.b")] [.text "Later"]], false)
    ∧ applyTranslations stdRuntime (I18n.mk throwingBundle "uk")
        (applyTranslations stdRuntime (I18n.mk throwingBundle "uk") nestedDoc).1 =
      (.element [] [("lang", "uk")]
        [.element [] [("data-i18n", "outer.missing")] [.text "bold tail"],
         .element [] [("data-i18n", "a.b")] [.text "X"]], true)
    ∧ (applyTranslations stdRuntime (I18n.mk throwingBundle "uk")
        (applyTranslations stdRuntime (I18n.mk throwingBundle "uk") nestedDoc).1).1
      ≠ (applyTranslations stdRuntime (I18n.mk throwingBundle "uk") nestedDoc).1 := by
  have h1 : applyTranslations stdRuntime (I18n.mk throwingBundle "uk") nestedDoc =
      (.element [] []
        [.element [] [("data-i18n", "outer.missing")] [.text "bold tail"],
         .element [] [("data-i18n", "a.b")] [.text "Later"]], false) := rfl
  have h2 : applyTranslations stdRuntime (I18n.mk throwingBundle "uk")
        (applyTranslations stdRuntime (I18n.mk throwingBundle "uk") nestedDoc).1 =
      (.element [] [("lang", "uk")]
        [.element [] [("data-i18n", "outer.missing")] [.text "bold tail"],
         .element [] [("data-i18n", "a.b")] [.text "X"]], true) := rfl
  refine ⟨h1, h2, ?_⟩
  rw [h2, h1]
  intro heq
  have htext := congrArg textContent heq
  exact absurd htext (by decide)

/-! ## The empty bundle -/

theorem foldl_getNestedValueStep_null (rt : Runtime) (segs : List String) :
    segs.foldl (getNestedValueStep rt) .null = .null := by
  induction segs with
  | nil => rfl
  | cons k ks ih =>
    rw [List.foldl_cons]
    exact ih

/-- In the empty bundle a key resolves to `null` when its first segment names
no property that the empty object inherits. -/
theorem getNestedValue_empty_bundle (rt : Runtime) (key seg : String) (rest : List String)
    (hsplit : jsSplit '.' key = seg :: rest)
    (hseg : rt.builtinProp (.obj []) seg = .undefined) :
    getNestedValue rt (.obj []) key = .null := by
  unfold getNestedValue
  rw [hsplit, List.foldl_cons]
  have : getNestedValueStep rt (.obj []) seg = .null := by
    simp [getNestedValueStep, truthy, getProp, ownProp, hseg]
  rw [this]
  exact foldl_getNestedValueStep_null rt rest

/-- An element whose `data-i18n` key does not resolve keeps its text through
the first loop of `applyTranslations`. -/
theorem applyText_unresolved_keeps_text (rt : Runtime) (self : I18n) (cls : List String)
    (attrs : List (String × String)) (ch : List Node) (key : String)
    (hm : getAttribute attrs "data-i18n" = some key) (hk : key ≠ "")
    (h : getNestedValue rt self.translations key = .null) :
    textContent (applyText rt self (.element cls attrs ch)).1 =
      textContent (.element cls attrs ch) := by
  have hc : converts rt self key = true := by simp [converts, h]
  have hr : resolveOr rt self key (textContentList ch) = textContentList ch := by
    simp [resolveOr, h]
  simp only [applyText, hm, hk, if_false, textContentArg_t, hc, if_true, hr, textContent,
    textContentList_setTextContent]

/-- C8, the code at an empty bundle and a key that names a member every
object inherits: the lookup of `constructor` in the empty mapping finds the
built-in function `Object`, which is not `undefined`, so the fallback is not
used and the text of the element is replaced by the text of that function. -/
theorem applyTranslations_empty_bundle_inherited_key :
    getNestedValue stdRuntime (.obj []) "constructor" = .native "Object"
    ∧ applyTranslations stdRuntime (I18n.mk (.obj []) "en") exampleDoc =
      (.element [] [("lang", "en")]
        [.element [] [("data-i18n", "constructor")]
          [.text "function Object() \x7b [native code] \x7d"]], true)
    ∧ textContent (applyTranslations stdRuntime (I18n.mk (.obj []) "en") exampleDoc).1
      ≠ textContent exampleDoc := by
  have h2 : applyTranslations stdRuntime (I18n.mk (.obj []) "en") exampleDoc =
      (.element [] [("lang", "en")]
        [.element [] [("data-i18n", "constructor")]
          [.text "function Object() \x7b [native code] \x7d"]], true) := by
    rfl
  refine ⟨rfl, h2, ?_⟩
  rw [h2]
  decide

end Photon
